import Mathlib

/-!
Verification of the filter-pushdown analyzer of the Substrait-to-Velox plan
converter (velox/substrait/SubstraitToVeloxPlan.cpp).

The expression IR, the per-column constraint accumulator and the subfield
filter builder are embedded shallowly.  Fallible C++ paths (VELOX_FAIL,
VELOX_CHECK, VELOX_NYI and thrown std exceptions) are modelled with
`Except String`.  Collaborators that live outside the translated source
file (the function-registry binder, the expression converter, the
`FilterInfo` record of the header and velox filter constructors) are
modelled from the specification and are marked as such in their doc
comments.
-/

namespace VeloxSubstrait

/-- Opaque model of a C++ double as it flows through the converter. The
converter never computes with doubles: fp64 plan literals are carried
verbatim, and the only other double values are the two numeric-limits
placeholders used as unread stand-ins for unbounded range ends. -/
inductive Fp where
  | lit (bits : Int)
  | limitsLowest
  | limitsMax
deriving DecidableEq, Repr

/-- Modelled from the spec: the literal variant produced by the expression
translator, a tagged scalar value (i32/i64 payloads share the integer
constructor; the converter builds and reads a variant under the same
column type, so the tag split is immaterial). -/
inductive Variant where
  | vInt (i : Int)
  | vFp (f : Fp)
  | vStr (s : String)
deriving DecidableEq, Repr

/-- Velox column type kinds reached by the converter. -/
inductive TypeKind where
  | INTEGER
  | BIGINT
  | DOUBLE
  | VARCHAR
  | BOOLEAN
  | OTHERKIND
deriving DecidableEq, Repr

/-- Substrait literal payloads (Expression.Literal). -/
inductive SLit where
  | i32 (v : Int)
  | i64 (v : Int)
  | fp64 (bits : Int)
  | str (s : String)
  | boolean (b : Bool)
  | list (vs : List SLit)
  | nullLit

/-- Protobuf accessor semantics: reading the i32 payload of a literal that
holds a different case yields the default value 0. -/
def SLit.getI32 : SLit → Int
  | .i32 v => v
  | _ => 0

/-- Protobuf accessor for the i64 payload (default 0). -/
def SLit.getI64 : SLit → Int
  | .i64 v => v
  | _ => 0

/-- Protobuf accessor for the fp64 payload (default 0.0). -/
def SLit.getFp64 : SLit → Fp
  | .fp64 b => Fp.lit b
  | _ => Fp.lit 0

/-- Protobuf accessor for the string payload (default empty). -/
def SLit.getString : SLit → String
  | .str s => s
  | _ => ""

/-- Substrait expressions as consumed by the analyzer.  A scalar function
node carries its canonical function name and the argument-type tags of its
signature: in the source the node stores a function anchor which the
function-registry binder (an external collaborator, spec section 4.1)
resolves to a specification string such as "gte:i64_i64"; we carry the
split result directly.  A `selection` node carries the column index that
`parseReferenceSegment` extracts from its direct reference. -/
inductive SExpr where
  | selection (fieldIdx : Nat)
  | literal (lit : SLit)
  | scalarFunction (name : String) (types : List String) (args : List SExpr)
  | unsupported (tag : Nat)

/-- A Substrait Expression_ScalarFunction seen on its own (the element type
of the flattened conjunction lists). -/
structure SFun where
  name : String
  types : List String
  args : List SExpr

/-- Reinject a scalar function into the expression type. -/
def SFun.toExpr (f : SFun) : SExpr :=
  .scalarFunction f.name f.types f.args

/-- File formats distinguished by the converter. -/
inductive FileFormat where
  | PARQUET
  | ORC
  | DWRF
  | RC
  | RC_TEXT
  | RC_BINARY
  | TEXT
  | JSON
  | ALPHA
  | UNKNOWN
deriving DecidableEq, Repr

/-- Velox filter kinds (common::FilterKind members reached by the
converter, plus a kind for the double values filter whose concrete velox
kind is produced by an external constructor). -/
inductive FilterKind where
  | kAlwaysFalse
  | kAlwaysTrue
  | kIsNull
  | kIsNotNull
  | kBoolValue
  | kBigintRange
  | kFloatRange
  | kDoubleRange
  | kBytesRange
  | kBytesValues
  | kBigintValuesUsingBitmask
  | kBigintValuesUsingHashTable
  | kBigintMultiRange
  | kMultiRange
  | kDoubleValues
deriving DecidableEq, Repr

/-- Subfield filter primitives.  Each range carries
(lower, lowerUnbounded, lowerExclusive, upper, upperUnbounded,
upperExclusive, nullAllowed) in the argument order of the source's
make_unique calls. -/
inductive VFilter where
  | bigintRange (lower : Int) (lowerUnbounded lowerExclusive : Bool)
      (upper : Int) (upperUnbounded upperExclusive : Bool) (nullAllowed : Bool)
  | doubleRange (lower : Fp) (lowerUnbounded lowerExclusive : Bool)
      (upper : Fp) (upperUnbounded upperExclusive : Bool) (nullAllowed : Bool)
  | bytesRange (lower : String) (lowerUnbounded lowerExclusive : Bool)
      (upper : String) (upperUnbounded upperExclusive : Bool) (nullAllowed : Bool)
  | isNotNull
  | bigintValuesUsingBitmask (min max : Int) (values : List Int) (nullAllowed : Bool)
  | bigintValuesUsingHashTable (min max : Int) (values : List Int) (nullAllowed : Bool)
  | doubleValues (values : List Fp) (nullAllowed : Bool)
  | bytesValues (values : List String) (nullAllowed : Bool)
  | bigintMultiRange (ranges : List VFilter) (nullAllowed : Bool)
  | multiRange (ranges : List VFilter) (nullAllowed : Bool)

/-- The kind discriminator of a filter primitive. -/
def VFilter.kind : VFilter → FilterKind
  | .bigintRange .. => .kBigintRange
  | .doubleRange .. => .kDoubleRange
  | .bytesRange .. => .kBytesRange
  | .isNotNull => .kIsNotNull
  | .bigintValuesUsingBitmask .. => .kBigintValuesUsingBitmask
  | .bigintValuesUsingHashTable .. => .kBigintValuesUsingHashTable
  | .doubleValues .. => .kDoubleValues
  | .bytesValues .. => .kBytesValues
  | .bigintMultiRange .. => .kBigintMultiRange
  | .multiRange .. => .kMultiRange

/-- The subfield filter map: column name to filter primitive, in insertion
order (the C++ unordered_map is only ever iterated for membership-style
checks, so insertion order is a faithful carrier). -/
abbrev SubfieldFilters := List (String × VFilter)

/-- Insert-or-assign on the subfield filter map. -/
def SubfieldFilters.assign (fs : SubfieldFilters) (k : String) (v : VFilter) :
    SubfieldFilters :=
  if (fs.map Prod.fst).contains k then
    fs.map (fun p => if p.1 = k then (k, v) else p)
  else
    fs ++ [(k, v)]

/-- Engine-native typed expressions, kept opaque: the expression converter
(an external collaborator) injects a scalar function verbatim, and
connectWithAnd combines two typed expressions under an "and" call. -/
inductive TypedExpr where
  | ofScalar (f : SFun)
  | andE (a b : TypedExpr)

/-- Modelled from the spec: the FilterInfo record of
SubstraitToVeloxPlan.h (the header is not part of the translated source;
spec section 3 gives its fields and setter semantics). -/
structure FilterInfo where
  lowerBounds : List (Option Variant)
  lowerExclusives : List Bool
  upperBounds : List (Option Variant)
  upperExclusives : List Bool
  notValue : Option Variant
  valuesVector : List Variant
  nullAllowed : Bool
deriving DecidableEq, Repr

/-- The FilterInfo of a column no leaf has touched. -/
def FilterInfo.default : FilterInfo :=
  ⟨[], [], [], [], none, [], true⟩

/-- Modelled from the spec: derived predicate, true when at least one
field carries a value (nullAllowed departs from its default true when
IS NOT NULL was recorded). -/
def FilterInfo.isInitialized (fi : FilterInfo) : Bool :=
  !fi.lowerBounds.isEmpty || !fi.upperBounds.isEmpty || fi.notValue.isSome ||
    !fi.valuesVector.isEmpty || !fi.nullAllowed

/-- Modelled from the spec: append a lower bound with its strictness flag. -/
def FilterInfo.setLower (fi : FilterInfo) (v : Option Variant) (exclusive : Bool) :
    FilterInfo :=
  { fi with lowerBounds := fi.lowerBounds ++ [v],
            lowerExclusives := fi.lowerExclusives ++ [exclusive] }

/-- Modelled from the spec: append an upper bound with its strictness flag. -/
def FilterInfo.setUpper (fi : FilterInfo) (v : Option Variant) (exclusive : Bool) :
    FilterInfo :=
  { fi with upperBounds := fi.upperBounds ++ [v],
            upperExclusives := fi.upperExclusives ++ [exclusive] }

/-- Modelled from the spec: record the not-equal value. -/
def FilterInfo.setNotValue (fi : FilterInfo) (v : Option Variant) : FilterInfo :=
  { fi with notValue := v }

/-- Modelled from the spec: record the IN value list. -/
def FilterInfo.setValues (fi : FilterInfo) (vals : List Variant) : FilterInfo :=
  { fi with valuesVector := vals }

/-- Modelled from the spec: IS NOT NULL clears the null-allowed flag. -/
def FilterInfo.forbidsNull (fi : FilterInfo) : FilterInfo :=
  { fi with nullAllowed := false }

/-- The working map from column index to FilterInfo; every index starts at
the default record, matching the initialization loop of toSubfieldFilters. -/
abbrev ColInfoMap := Nat → FilterInfo

/-- Update one column of the map. -/
def updateCol (m : ColInfoMap) (c : Nat) (g : FilterInfo → FilterInfo) : ColInfoMap :=
  fun i => if i = c then g (m i) else m i

/-!  The filter normalizer (C3 of the spec). -/

mutual

/-- Embeds flattenConditions: recurse into scalar calls whose canonical
name is "and", collect every other scalar call as a leaf, and fail
(VELOX_NYI) on any expression that is not a scalar call. -/
def flattenConditions (e : SExpr) : Except String (List SFun) :=
  match e with
  | .scalarFunction name types args =>
      if name = "and" then flattenCondList args
      else .ok [⟨name, types, args⟩]
  | _ => .error "GetFlatConditions not supported for type"

/-- Flattens the conditions of an "and" call in argument order. -/
def flattenCondList (es : List SExpr) : Except String (List SFun) :=
  match es with
  | [] => .ok []
  | a :: rest => do
      let x ← flattenConditions a
      let y ← flattenCondList rest
      .ok (x ++ y)

end

/-- Embeds fieldOrWithLiteral: `some idx` models returning true together
with the extracted field index, `none` models returning false.  With two
arguments the source scans both, remembering the last selection index and
whether a selection and a literal were both seen. -/
def fieldOrWithLiteral (f : SFun) : Option Nat :=
  match f.args with
  | [a] =>
      match a with
      | .selection idx => some idx
      | _ => none
  | [a, b] =>
      let step := fun (st : Option Nat × Bool) (p : SExpr) =>
        match p with
        | .selection idx => (some idx, st.2)
        | .literal _ => (st.1, true)
        | _ => st
      match [a, b].foldl step (none, false) with
      | (some idx, true) => some idx
      | _ => none
  | _ => none

/-- Helper of chidrenFunctionsOnSameField: the selection column indices
appearing in the arguments of the children scalar functions; `none` models
the early false return when a child is not a scalar call. -/
def childSelectionCols : List SExpr → Option (List Nat)
  | [] => some []
  | .scalarFunction _ _ cargs :: rest => do
      let tail ← childSelectionCols rest
      some ((cargs.filterMap fun p =>
        match p with
        | .selection i => some i
        | _ => none) ++ tail)
  | _ :: _ => none

/-- Embeds chidrenFunctionsOnSameField (name kept from the source): all
collected column indices agree with the first (vacuously true when no
selection occurs). -/
def chidrenFunctionsOnSameField (f : SFun) : Bool :=
  match childSelectionCols f.args with
  | none => false
  | some cols => cols.all (fun i => i = cols.headD 0)

/-- Embeds getColumnIndexFromIn with its three VELOX_CHECKs. -/
def getColumnIndexFromIn (f : SFun) : Except String Nat :=
  match f.args with
  | [.selection idx, .literal (.list _)] => .ok idx
  | [.selection _, .literal _] => .error "List expected."
  | [.selection _, _] => .error "Literal expected."
  | [_, _] => .error "Field expected."
  | _ => .error "Two args expected in In expression."

/-- Embeds getInColIndices: the set of column indices referenced as the
first argument of a top-level "in" leaf, in first-appearance order. -/
def getInColIndices (fs : List SFun) : Except String (List Nat) :=
  fs.foldlM (fun inCols f =>
    if f.name = "in" then
      match f.args with
      | [] => .error "Arg is expected for IN function."
      | a0 :: _ =>
          match a0 with
          | .selection _ => do
              let colIdx ← getColumnIndexFromIn f
              if inCols.contains colIdx then .ok inCols
              else .ok (inCols ++ [colIdx])
          | _ => .ok inCols
    else .ok inCols) []

/-- The common comparison functions the analyzer can push down. -/
def supportedCommonFunctions : List String :=
  ["is_not_null", "gte", "gt", "lte", "lt", "equal", "in"]

/-- Embeds canPushdownCommonFunction. -/
def canPushdownCommonFunction (f : SFun) (inCols : List Nat)
    (filterName : String) : Bool :=
  if !(supportedCommonFunctions.contains filterName) then false
  else
    match fieldOrWithLiteral f with
    | none => false
    | some fieldIdx =>
        if !(inCols.contains fieldIdx) then true
        else if filterName = "is_not_null" || filterName = "in" then true
        else false

/-- Helper of canPushdownNot: walk the arguments of the child equal call,
recording each selection column in the not-equal set and rejecting a
column already present.  The updated set is returned even on rejection, as
the C++ set is mutated in place. -/
def recordNotEqualCols : List SExpr → List Nat → Bool × List Nat
  | [], s => (true, s)
  | .selection c :: rest, s =>
      if s.contains c then (false, s)
      else recordNotEqualCols rest (s ++ [c])
  | _ :: rest, s => recordNotEqualCols rest s

/-- The comparison functions a pushed-down "not" may wrap. -/
def supportedNotFunctions : List String := ["gte", "gt", "lte", "lt", "equal"]

/-- Embeds canPushdownNot, including the VELOX_CHECK on the argument count
and the tracking of multiple not(equal) columns. -/
def canPushdownNot (f : SFun) (inCols : List Nat) (notEqualCols : List Nat) :
    Except String (Bool × List Nat) :=
  match f.args with
  | [notArg] =>
      match notArg with
      | .scalarFunction cname ctypes cargs =>
          if !(supportedNotFunctions.contains cname) then
            .ok (false, notEqualCols)
          else
            match fieldOrWithLiteral ⟨cname, ctypes, cargs⟩ with
            | none => .ok (false, notEqualCols)
            | some fieldIdx =>
                if inCols.contains fieldIdx then .ok (false, notEqualCols)
                else if cname = "equal" then
                  .ok (recordNotEqualCols cargs notEqualCols)
                else .ok (true, notEqualCols)
      | _ => .ok (false, notEqualCols)
  | _ => .error "Only one arg is expected for Not."

/-- The functions an "or" child may be. -/
def supportedOrFunctions : List String :=
  ["is_not_null", "gte", "gt", "lte", "lt", "equal", "in"]

/-- Embeds the child loop of canPushdownOr, threading the flag that an
"in" child has already been seen. -/
def canPushdownOrGo (inCols : List Nat) : List SExpr → Bool → Bool
  | [], _ => true
  | arg :: rest, inExists =>
      match arg with
      | .scalarFunction cname ctypes cargs =>
          if !(supportedOrFunctions.contains cname) then false
          else
            match fieldOrWithLiteral ⟨cname, ctypes, cargs⟩ with
            | none => false
            | some fieldIdx =>
                if inCols.contains fieldIdx then false
                else if cname = "in" || cname = "is_not_null" then
                  if ctypes.contains "i32" || ctypes.contains "i64" then false
                  else if cname = "in" then
                    if inExists then false
                    else canPushdownOrGo inCols rest true
                  else canPushdownOrGo inCols rest inExists
                else canPushdownOrGo inCols rest inExists
      | _ => false

/-- Embeds canPushdownOr: same-column check on the children, then the
per-child eligibility loop. -/
def canPushdownOr (f : SFun) (inCols : List Nat) : Bool :=
  if !chidrenFunctionsOnSameField f then false
  else canPushdownOrGo inCols f.args false

/-- Embeds the partition loop of separateFilters, with the pushdown and
residual lists and the not-equal column set as accumulators. -/
def separateFiltersGo (inCols : List Nat) :
    List SFun → List SFun → List SFun → List Nat →
    Except String (List SFun × List SFun)
  | [], sub, rem, _ => .ok (sub, rem)
  | f :: rest, sub, rem, neq =>
      if f.name ≠ "not" ∧ f.name ≠ "or" then
        if canPushdownCommonFunction f inCols f.name then
          separateFiltersGo inCols rest (sub ++ [f]) rem neq
        else separateFiltersGo inCols rest sub (rem ++ [f]) neq
      else if f.name = "not" then
        match canPushdownNot f inCols neq with
        | .error e => .error e
        | .ok (supported, neq2) =>
            if supported then separateFiltersGo inCols rest (sub ++ [f]) rem neq2
            else separateFiltersGo inCols rest sub (rem ++ [f]) neq2
      else
        if canPushdownOr f inCols then
          separateFiltersGo inCols rest (sub ++ [f]) rem neq
        else separateFiltersGo inCols rest sub (rem ++ [f]) neq

/-- Embeds separateFilters: compute the IN columns, then partition the
flattened leaves into pushdown candidates and residuals. -/
def separateFilters (fs : List SFun) :
    Except String (List SFun × List SFun) := do
  let inCols ← getInColIndices fs
  separateFiltersGo inCols fs [] [] []

/-!  The column constraint accumulator (C4 of the spec). -/

/-- Embeds setColInfoMap, the comparison table of the accumulator. -/
def setColInfoMap (filterName : String) (colIdx : Nat)
    (literalVariant : Option Variant) (reverse : Bool) (m : ColInfoMap) :
    Except String ColInfoMap :=
  if filterName = "is_not_null" then
    if reverse then .error "Reverse not supported for filter name is_not_null"
    else .ok (updateCol m colIdx FilterInfo.forbidsNull)
  else if filterName = "gte" then
    if reverse then .ok (updateCol m colIdx (FilterInfo.setUpper · literalVariant true))
    else .ok (updateCol m colIdx (FilterInfo.setLower · literalVariant false))
  else if filterName = "gt" then
    if reverse then .ok (updateCol m colIdx (FilterInfo.setUpper · literalVariant false))
    else .ok (updateCol m colIdx (FilterInfo.setLower · literalVariant true))
  else if filterName = "lte" then
    if reverse then .ok (updateCol m colIdx (FilterInfo.setLower · literalVariant true))
    else .ok (updateCol m colIdx (FilterInfo.setUpper · literalVariant false))
  else if filterName = "lt" then
    if reverse then .ok (updateCol m colIdx (FilterInfo.setLower · literalVariant false))
    else .ok (updateCol m colIdx (FilterInfo.setUpper · literalVariant true))
  else if filterName = "equal" then
    if reverse then .ok (updateCol m colIdx (FilterInfo.setNotValue · literalVariant))
    else .ok (updateCol m colIdx
      (fun fi => (fi.setLower literalVariant false).setUpper literalVariant false))
  else .error "SetColInfoMap not supported for filter name"

/-- Modelled from the spec: the expression converter turns a Substrait
literal into a tagged variant preserving its type (i32, i64, fp64,
string); other literal kinds are untranslatable. -/
def toTypedVariant : SLit → Except String Variant
  | .i32 v => .ok (.vInt v)
  | .i64 v => .ok (.vInt v)
  | .fp64 b => .ok (.vFp (.lit b))
  | .str s => .ok (.vStr s)
  | _ => .error "Literal type is not supported"

/-- Embeds setInValues: extract the IN column and record the value list. -/
def setInValues (f : SFun) (m : ColInfoMap) : Except String ColInfoMap := do
  let colIdx ← getColumnIndexFromIn f
  match f.args with
  | [_, .literal (.list vs)] => do
      let variants ← vs.mapM toTypedVariant
      .ok (updateCol m colIdx (FilterInfo.setValues · variants))
  | _ => .error "List expected."

/-- Embeds setFilterMap: dispatch "in" to setInValues, otherwise extract
the column index and the literal from the arguments (failing on any other
argument kind) and apply the comparison table under the column type, with
the literal read through the protobuf accessor of that type. -/
def setFilterMap (f : SFun) (inputTypeList : List TypeKind) (m : ColInfoMap)
    (reverse : Bool) : Except String ColInfoMap := do
  if f.name = "in" then setInValues f m
  else do
    let st ← f.args.foldlM
      (fun (st : Option Nat × Option SLit) p =>
        match p with
        | .selection idx => .ok ((some idx, st.2) : Option Nat × Option SLit)
        | .literal l => .ok (st.1, some l)
        | _ => .error "Substrait conversion not supported for arg type")
      ((none, none) : Option Nat × Option SLit)
    match st.1 with
    | none => .error "Column index is expected in subfield filters creation."
    | some colIdxVal =>
        match inputTypeList.get? colIdxVal with
        | some .INTEGER =>
            setColInfoMap f.name colIdxVal
              (st.2.map (fun l => .vInt l.getI32)) reverse m
        | some .BIGINT =>
            setColInfoMap f.name colIdxVal
              (st.2.map (fun l => .vInt l.getI64)) reverse m
        | some .DOUBLE =>
            setColInfoMap f.name colIdxVal
              (st.2.map (fun l => .vFp l.getFp64)) reverse m
        | some .VARCHAR =>
            setColInfoMap f.name colIdxVal
              (st.2.map (fun l => .vStr l.getString)) reverse m
        | some _ => .error "Subfield filters creation not supported for input type"
        | none => .error "column type index out of range"

/-!  The subfield filter builder (C5 of the spec). -/

/-- Modelled from the spec: common::createBigintValues chooses between the
bitmask and the hash-table integer value-set filter by the spread of the
values; the spec gives no threshold, so the spread test is modelled as
(max - min less-or-equal 4 times the count).  Both results are
parquet-supported kinds, so no claim depends on the choice. -/
def createBigintValues (values : List Int) (nullAllowed : Bool) : VFilter :=
  let mn := values.foldl min (values.headD 0)
  let mx := values.foldl max (values.headD 0)
  if mx - mn ≤ 4 * values.length then
    .bigintValuesUsingBitmask mn mx values nullAllowed
  else
    .bigintValuesUsingHashTable mn mx values nullAllowed

/-- Modelled from the spec: the double value-set filter constructor. -/
def createDoubleValues (values : List Fp) (nullAllowed : Bool) : VFilter :=
  .doubleValues values nullAllowed

/-- Reads the integer payload of a variant; a mismatch models the
exception thrown by variant::value. -/
def Variant.asInt : Variant → Except String Int
  | .vInt i => .ok i
  | _ => .error "variant payload is not an integer"

/-- Reads the double payload of a variant. -/
def Variant.asFp : Variant → Except String Fp
  | .vFp f => .ok f
  | _ => .error "variant payload is not a double"

/-- Reads the string payload of a variant. -/
def Variant.asStr : Variant → Except String String
  | .vStr s => .ok s
  | _ => .error "variant payload is not a string"

/-- The per-kind operations bundled by the RangeTraits specializations of
the header together with the setInFilter specializations of the source:
the native value type, its numeric-limits placeholders, the range and
multi-range constructors and the IN lowering. -/
structure RangeTraitsOps (Native : Type) where
  getLowest : Native
  getMax : Native
  fromVariant : Variant → Except String Native
  mkRange : Native → Bool → Bool → Native → Bool → Bool → Bool → VFilter
  mkMultiRange : List VFilter → Bool → VFilter
  setIn : List Variant → Bool → String → SubfieldFilters →
    Except String SubfieldFilters

/-- RangeTraits at INTEGER: int32 limits, BigintRange and BigintMultiRange;
setInFilter reads int32 payloads and builds bigint values. -/
def traitsInteger : RangeTraitsOps Int :=
  { getLowest := -(2 ^ 31)
    getMax := 2 ^ 31 - 1
    fromVariant := Variant.asInt
    mkRange := fun l lu lex u uu uex na => .bigintRange l lu lex u uu uex na
    mkMultiRange := fun rs na => .bigintMultiRange rs na
    setIn := fun vars na name filters => do
      let values ← vars.mapM Variant.asInt
      .ok (filters.assign name (createBigintValues values na)) }

/-- RangeTraits at BIGINT: int64 limits, BigintRange and BigintMultiRange. -/
def traitsBigint : RangeTraitsOps Int :=
  { getLowest := -(2 ^ 63)
    getMax := 2 ^ 63 - 1
    fromVariant := Variant.asInt
    mkRange := fun l lu lex u uu uex na => .bigintRange l lu lex u uu uex na
    mkMultiRange := fun rs na => .bigintMultiRange rs na
    setIn := fun vars na name filters => do
      let values ← vars.mapM Variant.asInt
      .ok (filters.assign name (createBigintValues values na)) }

/-- RangeTraits at DOUBLE: double limits, DoubleRange and MultiRange. -/
def traitsDouble : RangeTraitsOps Fp :=
  { getLowest := .limitsLowest
    getMax := .limitsMax
    fromVariant := Variant.asFp
    mkRange := fun l lu lex u uu uex na => .doubleRange l lu lex u uu uex na
    mkMultiRange := fun rs na => .multiRange rs na
    setIn := fun vars na name filters => do
      let values ← vars.mapM Variant.asFp
      .ok (filters.assign name (createDoubleValues values na)) }

/-- RangeTraits at VARCHAR: empty-string placeholders, BytesRange and
MultiRange; setInFilter builds BytesValues directly. -/
def traitsVarchar : RangeTraitsOps String :=
  { getLowest := ""
    getMax := ""
    fromVariant := Variant.asStr
    mkRange := fun l lu lex u uu uex na => .bytesRange l lu lex u uu uex na
    mkMultiRange := fun rs na => .multiRange rs na
    setIn := fun vars na name filters => do
      let values ← vars.mapM Variant.asStr
      .ok (filters.assign name (.bytesValues values na)) }

/-- Embeds createNotEqualFilter: append the (value, plus-infinity) and
(minus-infinity, value) half-open ranges, both exclusive at the value and
both carrying the null-allowed flag. -/
def createNotEqualFilter {Native : Type} (ops : RangeTraitsOps Native)
    (notVariant : Variant) (nullAllowed : Bool) (colFilters : List VFilter) :
    Except String (List VFilter) := do
  let nv ← ops.fromVariant notVariant
  .ok (colFilters ++
    [ops.mkRange nv false true ops.getMax true false nullAllowed,
     ops.mkRange ops.getLowest true false nv false true nullAllowed])

/-- One iteration of the range-construction loop of
constructSubfieldFilters.  The bound state lives outside the loop in the
source, so it persists across iterations and is only overwritten when the
bound at the current index is present. -/
def rangeStep {Native : Type} (ops : RangeTraitsOps Native) (fi : FilterInfo)
    (st : (Native × Bool × Bool × Native × Bool × Bool) × List VFilter)
    (idx : Nat) :
    Except String ((Native × Bool × Bool × Native × Bool × Bool) × List VFilter) := do
  let ((lb0, lu0, lex0, ub0, uu0, uex0), acc) := st
  let (lb, lu, lex) ←
    match fi.lowerBounds.get? idx with
    | some (some v) => do
        let n ← ops.fromVariant v
        pure (n, false, fi.lowerExclusives.getD idx false)
    | _ => pure (lb0, lu0, lex0)
  let (ub, uu, uex) ←
    match fi.upperBounds.get? idx with
    | some (some v) => do
        let n ← ops.fromVariant v
        pure (n, false, fi.upperExclusives.getD idx false)
    | _ => pure (ub0, uu0, uex0)
  let filter := ops.mkRange lb lu lex ub uu uex fi.nullAllowed
  .ok ((lb, lu, lex, ub, uu, uex), acc ++ [filter])

/-- Embeds setSubfieldFilter: a single range is emitted as is, several are
wrapped in the multi-range of the column kind; an empty list sets nothing. -/
def setSubfieldFilter {Native : Type} (ops : RangeTraitsOps Native)
    (colFilters : List VFilter) (inputName : String) (nullAllowed : Bool)
    (filters : SubfieldFilters) : SubfieldFilters :=
  match colFilters with
  | [] => filters
  | [single] => filters.assign inputName single
  | _ => filters.assign inputName (ops.mkMultiRange colFilters nullAllowed)

/-- Embeds constructSubfieldFilters: IN case, not-equal case, pure null
filter, then the range loop, with the VELOX_CHECKs of the source. -/
def constructSubfieldFilters {Native : Type} (ops : RangeTraitsOps Native)
    (inputName : String) (filterInfo : FilterInfo) (filters : SubfieldFilters) :
    Except String SubfieldFilters := do
  if !filterInfo.isInitialized then .ok filters
  else
    let rangeSize := max filterInfo.lowerBounds.length filterInfo.upperBounds.length
    let nullAllowed := filterInfo.nullAllowed
    if filterInfo.valuesVector.length > 0 then do
      let filters2 ← ops.setIn filterInfo.valuesVector nullAllowed inputName filters
      if rangeSize ≠ 0 then
        .error "LowerBounds or upperBounds conditions cannot be supported after IN filter."
      else if filterInfo.notValue.isSome then
        .error "Not equal cannot be supported after IN filter."
      else .ok filters2
    else
      match filterInfo.notValue with
      | some notVariant => do
          let colFilters ← createNotEqualFilter ops notVariant
            filterInfo.nullAllowed []
          if rangeSize ≠ 0 then
            .error "LowerBounds or upperBounds conditions cannot be supported after not-equal filter."
          else
            .ok (filters.assign inputName (ops.mkMultiRange colFilters nullAllowed))
      | none =>
          if rangeSize = 0 && !nullAllowed then
            .ok (filters.assign inputName .isNotNull)
          else do
            let r ← (List.range rangeSize).foldlM (rangeStep ops filterInfo)
              ((ops.getLowest, true, false, ops.getMax, true, false), [])
            .ok (setSubfieldFilter ops r.2 inputName filterInfo.nullAllowed filters)

/-- Embeds mapToFilters: lower every column FilterInfo under the trait of
its column type. -/
def mapToFilters (inputNameList : List String) (inputTypeList : List TypeKind)
    (colInfoMap : ColInfoMap) : Except String SubfieldFilters :=
  (List.range inputNameList.length).foldlM (fun filters colIdx =>
    match inputTypeList.get? colIdx with
    | some .INTEGER =>
        constructSubfieldFilters traitsInteger (inputNameList.getD colIdx "")
          (colInfoMap colIdx) filters
    | some .BIGINT =>
        constructSubfieldFilters traitsBigint (inputNameList.getD colIdx "")
          (colInfoMap colIdx) filters
    | some .DOUBLE =>
        constructSubfieldFilters traitsDouble (inputNameList.getD colIdx "")
          (colInfoMap colIdx) filters
    | some .VARCHAR =>
        constructSubfieldFilters traitsVarchar (inputNameList.getD colIdx "")
          (colInfoMap colIdx) filters
    | some _ => .error "Subfield filters creation not supported for input type"
    | none => .error "column type index out of range") []

/-- Embeds toSubfieldFilters: build the per-column FilterInfo map from the
pushdown candidates, with the VELOX_CHECKs on the shapes of "not" (exactly
one scalar-call argument) and "or" (exactly two scalar-call arguments),
then lower the map. -/
def toSubfieldFilters (inputNameList : List String)
    (inputTypeList : List TypeKind) (scalarFunctions : List SFun) :
    Except String SubfieldFilters := do
  let m ← scalarFunctions.foldlM (fun m f => do
    if f.name = "not" then
      match f.args with
      | [arg] =>
          match arg with
          | .scalarFunction cname ctypes cargs =>
              setFilterMap ⟨cname, ctypes, cargs⟩ inputTypeList m true
          | _ => .error "Scalar function expected."
      | _ => .error "not expects exactly one argument"
    else if f.name = "or" then
      if f.args.length ≠ 2 then .error "or expects exactly two arguments"
      else if !(f.args.all fun a =>
          match a with
          | .scalarFunction .. => true
          | _ => false) then .error "Scalar function expected."
      else
        f.args.foldlM (fun m a =>
          match a with
          | .scalarFunction cname ctypes cargs =>
              setFilterMap ⟨cname, ctypes, cargs⟩ inputTypeList m false
          | _ => .error "Scalar function expected.") m
    else setFilterMap f inputTypeList m false)
    (fun _ => FilterInfo.default)
  mapToFilters inputNameList inputTypeList m

/-!  The format veto and the residual conjunction. -/

/-- The filter kinds the parquet reader accepts, as the switch of
isPushDownSupportedByFormat: the six listed kinds are supported, every
other kind (including the default case) is not. -/
def parquetSupportsKind : FilterKind → Bool
  | .kBigintRange => true
  | .kDoubleRange => true
  | .kBytesValues => true
  | .kBytesRange => true
  | .kBigintValuesUsingBitmask => true
  | .kBigintValuesUsingHashTable => true
  | _ => false

/-- Embeds isPushDownSupportedByFormat: parquet checks every produced
filter against its supported kinds, every other format accepts all. -/
def isPushDownSupportedByFormat (format : FileFormat)
    (subfieldFilters : SubfieldFilters) : Bool :=
  match format with
  | .PARQUET => subfieldFilters.all fun p => parquetSupportsKind p.2.kind
  | _ => true

/-- Embeds connectWithAnd: no residual for an empty list, otherwise the
left fold of binary "and" calls over the converted leaves.  The expression
converter that turns each leaf into a typed expression is external and is
modelled as the opaque injection, so the name and type lists it receives
in the source do not influence the modelled output. -/
def connectWithAnd (remainingFunctions : List SFun) : Option TypedExpr :=
  match remainingFunctions with
  | [] => none
  | f :: rest =>
      some (rest.foldl (fun acc g => .andE acc (.ofScalar g)) (.ofScalar f))

/-- Embeds the filter branch of toVeloxPlan(ReadRel): flatten, partition,
build the subfield filters, then apply the format veto: if the format does
not support one of the produced filters the map is cleared and the whole
flattened conjunction becomes the residual, otherwise the map is kept and
only the residual leaves are conjoined. -/
def analyzeScanFilter (colNameList : List String)
    (veloxTypeList : List TypeKind) (format : FileFormat) (filter : SExpr) :
    Except String (SubfieldFilters × Option TypedExpr) := do
  let scalarFunctions ← flattenConditions filter
  let sep ← separateFilters scalarFunctions
  let subfieldFilters ← toSubfieldFilters colNameList veloxTypeList sep.1
  if !isPushDownSupportedByFormat format subfieldFilters then
    .ok ([], connectWithAnd scalarFunctions)
  else
    .ok (subfieldFilters, connectWithAnd sep.2)

/-!  Join-key extraction (toVeloxPlan(JoinRel) helper). -/

/-- Whether an expression is a direct field reference. -/
def SExpr.isSelection : SExpr → Bool
  | .selection _ => true
  | _ => false

/-- The column indices of the first two arguments of an equality join
condition, when both are field references. -/
def firstTwoSelections : List SExpr → Option (Nat × Nat)
  | .selection l :: .selection r :: _ => some (l, r)
  | _ => none

/-- Embeds the worklist loop of extractJoinKeys.  The source pushes the
two arguments of an "and" onto the back of the vector and then pops the
back, so the second argument is visited first.  Extra arguments beyond the
first two are ignored for "and" and, after the all-field check, for "eq";
a missing argument dereferences past the end in the source and is
modelled as an error. -/
def extractJoinKeysGo (stack : List SExpr) (leftExprs rightExprs : List Nat) :
    Except String (List Nat × List Nat) :=
  match stack with
  | [] => .ok (leftExprs, rightExprs)
  | visited :: rest =>
      match visited with
      | .scalarFunction funcName _ args =>
          if funcName = "and" then
            match args with
            | a0 :: a1 :: _ =>
                extractJoinKeysGo (a1 :: a0 :: rest) leftExprs rightExprs
            | _ => .error "and expects two arguments"
          else if funcName = "eq" then
            if !(args.all fun a => a.isSelection) then
              .error "Join keys must be field references"
            else
              match firstTwoSelections args with
              | some (l, r) =>
                  extractJoinKeysGo rest (leftExprs ++ [l]) (rightExprs ++ [r])
              | none => .error "eq expects two arguments"
          else .error "Join condition not supported."
      | _ => .error "Unable to parse from join expression"
termination_by sizeOf stack

/-- Embeds extractJoinKeys: run the worklist on the join expression. -/
def extractJoinKeys (joinExpression : SExpr) :
    Except String (List Nat × List Nat) :=
  extractJoinKeysGo [joinExpression] [] []

/-!  Stream-input detection (streamIsInput and the ReadRel dispatch). -/

/-- Position of the first occurrence of a pattern in a character list,
the semantics of std::string::find. -/
def findSubstrPos : List Char → List Char → Nat → Option Nat
  | s, pat, pos =>
      if pat.isPrefixOf s then some pos
      else
        match s with
        | [] => none
        | _ :: rest => findSubstrPos rest pat (pos + 1)

/-- std::string::find on strings. -/
def strFind (s pat : String) : Option Nat :=
  findSubstrPos s.data pat.data 0

/-- The leading decimal digits of a character list, or none if the first
character is not a digit. -/
def parseDigits (cs : List Char) : Option Nat :=
  let ds := cs.takeWhile (·.isDigit)
  if ds.isEmpty then none
  else some (ds.foldl (fun acc c => acc * 10 + (c.toNat - 48)) 0)

/-- Models std::stoi: skip leading whitespace, accept an optional sign,
require at least one digit, ignore everything after the digits; the
invalid-argument exception of a digitless input is an error.  The
out-of-range exception has no counterpart since the model is unbounded. -/
def stoi (s : String) : Except String Int :=
  let cs := s.data.dropWhile (fun c => c = ' ' || c = '\t' || c = '\n')
  match cs with
  | '-' :: rest =>
      match parseDigits rest with
      | some n => .ok (-(n : Int))
      | none => .error "stoi no conversion"
  | '+' :: rest =>
      match parseDigits rest with
      | some n => .ok ((n : Int))
      | none => .error "stoi no conversion"
  | _ =>
      match parseDigits cs with
      | some n => .ok ((n : Int))
      | none => .error "stoi no conversion"

/-- One entry of ReadRel.local_files.items. -/
structure LocalFile where
  uriFile : String
  start : Nat
  length : Nat
  partitionIndex : Nat
  format : Nat
deriving DecidableEq, Repr

/-- Embeds streamIsInput: with local files present, at least one entry is
required; the first URI is searched for the substring "iterator:" (a
containment test, std::string::find); when absent the result is -1 (a
real data file); when present, everything after the first occurrence is
parsed with stoi, whose failure is fatal.  Without local files the result
is -1 in validation mode and fatal otherwise. -/
def streamIsInput (validationMode : Bool)
    (localFiles : Option (List LocalFile)) : Except String Int :=
  match localFiles with
  | some fileList =>
      match fileList with
      | [] => .error "At least one file path is expected."
      | file0 :: _ =>
          let filePath := file0.uriFile
          let pat := "iterator:"
          match strFind filePath pat with
          | none => .ok (-1)
          | some pos => stoi (filePath.drop (pos + pat.length))
  | none =>
      if validationMode then .ok (-1)
      else .error "Local file is expected."

/-- Outcome of the stream dispatch at the head of toVeloxPlan(ReadRel):
either the pre-registered input node of the given index together with the
recorded splitInfo.isStream flag, or the table-scan path, whose split info
keeps the default isStream = false. -/
inductive ReadSource where
  | stream (idx : Nat) (isStream : Bool)
  | scan (isStream : Bool)
deriving DecidableEq, Repr

/-- Embeds the stream dispatch of toVeloxPlan(ReadRel): a non-negative
streamIsInput result selects the pre-registered input node of that index
(failing when none is registered) and records isStream = true; a negative
result falls through to the table-scan path. -/
def readRelSource (validationMode : Bool) (inputNodes : List Nat)
    (localFiles : Option (List LocalFile)) : Except String ReadSource := do
  let streamIdx ← streamIsInput validationMode localFiles
  if 0 ≤ streamIdx then
    if inputNodes.contains streamIdx.toNat then
      .ok (.stream streamIdx.toNat true)
    else .error "Could not find source index in input nodes map."
  else .ok (.scan false)

/-!  Definitions stated from the claims, for comparison with the source
embedding. -/

/-- Stated from the claim: the six filter kinds the parquet format
supports. -/
def claimParquetKinds : List FilterKind :=
  [.kBigintRange, .kDoubleRange, .kBytesValues, .kBytesRange,
   .kBigintValuesUsingBitmask, .kBigintValuesUsingHashTable]

/-- Stated from the claim: the (left, right) column pairs of the eq leaves
of a join condition, in declared textual order. -/
def textualEqPairs : SExpr → List (Nat × Nat)
  | .scalarFunction name _ args =>
      if name = "eq" then
        match args with
        | [.selection l, .selection r] => [(l, r)]
        | _ => []
      else if name = "and" then
        match args with
        | [x, y] => textualEqPairs x ++ textualEqPairs y
        | _ => []
      else []
  | _ => []

/-- Join conditions that are trees of binary "and" nodes over
eq(field, field) leaves. -/
inductive IsAndEqTree : SExpr → Prop where
  | eqLeaf (t : List String) (l r : Nat) :
      IsAndEqTree (.scalarFunction "eq" t [.selection l, .selection r])
  | andNode (t : List String) (x y : SExpr) :
      IsAndEqTree x → IsAndEqTree y →
      IsAndEqTree (.scalarFunction "and" t [x, y])

/-- Stated from the claim: a URI of the exact form "iterator:" followed by
a nonnegative decimal integer. -/
def isIteratorUriForm (s : String) : Bool :=
  "iterator:".data.isPrefixOf s.data &&
    (let rest := s.data.drop 9
     !rest.isEmpty && rest.all (·.isDigit))

/-- Integer payload of a variant with a default, for stating expected
range bounds under the integer-bound hypothesis. -/
def vIntD : Variant → Int
  | .vInt k => k
  | _ => 0

/-- Whether an optional bound is absent or holds an integer payload. -/
def isIntBound : Option Variant → Bool
  | none => true
  | some (.vInt _) => true
  | some _ => false

/-- Stated from the amended claim: the bound state the range loop carries
after k iterations over an integer column side.  It starts unbounded at
the placeholder default, and after iteration j it holds the bound at index
j when present, otherwise whatever it held before: the last present bound
at an index below k. -/
def boundStateUpTo (dflt : Int) (bounds : List (Option Variant))
    (excl : List Bool) : Nat → Int × Bool × Bool
  | 0 => (dflt, true, false)
  | j + 1 =>
      match bounds.get? j with
      | some (some v) => (vIntD v, false, excl.getD j false)
      | _ => boundStateUpTo dflt bounds excl j

/-- Packs the two per-side bound states into the loop state tuple. -/
def combineBoundStates (l u : Int × Bool × Bool) :
    Int × Bool × Bool × Int × Bool × Bool :=
  (l.1, l.2.1, l.2.2, u.1, u.2.1, u.2.2)

/-- Stated from the amended claim: the range emitted at index i carries
the bound states after iteration i, that is, each side uses its bound at
index i when present and otherwise inherits the last present bound at an
earlier index (initially unbounded at the numeric-limits placeholder). -/
def expectedBigintRange (lowest maxv : Int) (fi : FilterInfo) (i : Nat) :
    VFilter :=
  match boundStateUpTo lowest fi.lowerBounds fi.lowerExclusives (i + 1),
        boundStateUpTo maxv fi.upperBounds fi.upperExclusives (i + 1) with
  | (lb, lu, lex), (ub, uu, uex) =>
      .bigintRange lb lu lex ub uu uex fi.nullAllowed

/-!  Concrete inputs used by the claim theorems. -/

/-- A FilterInfo holding only not(equal 5), as scenario C of the spec
produces on an INTEGER column. -/
def fiC4 : FilterInfo := ⟨[], [], [], [], some (.vInt 5), [], true⟩

/-- An "in" child on VARCHAR column 0. -/
def inChildC9 : SExpr :=
  .scalarFunction "in" ["vchar"] [.selection 0, .literal (.list [.str "a", .str "b"])]

/-- A "gte" child on VARCHAR column 0. -/
def gteChildC9 : SExpr :=
  .scalarFunction "gte" ["vchar", "vchar"] [.selection 0, .literal (.str "x")]

/-- An eligible "or" combining an IN and a range on the same VARCHAR
column. -/
def orFnC9 : SFun := ⟨"or", [], [inChildC9, gteChildC9]⟩

/-- An eligible "or" with three same-column comparison children on a
BIGINT column. -/
def orFnC10 : SFun :=
  ⟨"or", [],
    [.scalarFunction "gte" ["i64", "i64"] [.selection 0, .literal (.i64 1)],
     .scalarFunction "lte" ["i64", "i64"] [.selection 0, .literal (.i64 5)],
     .scalarFunction "equal" ["i64", "i64"] [.selection 0, .literal (.i64 3)]]⟩

/-- A local file whose URI contains "iterator:" without starting with it. -/
def fileC8 : LocalFile := ⟨"xiterator:3", 0, 100, 0, 1⟩

/-- A local file whose URI is exactly of the iterator form. -/
def fileC8W : LocalFile := ⟨"iterator:7", 0, 100, 0, 1⟩

/-- Stated from the claim: the left key of each textual eq leaf. -/
def textualLeftKeys (e : SExpr) : List Nat := (textualEqPairs e).map Prod.fst

/-- Stated from the claim: the right key of each textual eq leaf. -/
def textualRightKeys (e : SExpr) : List Nat := (textualEqPairs e).map Prod.snd

/-- Scenario F join condition: and(eq(L.a, R.a), and(eq(L.b, R.b), eq(L.c, R.c)))
with the concatenated-output column indices 0..5. -/
def joinCondC6 : SExpr :=
  .scalarFunction "and" []
    [.scalarFunction "eq" [] [.selection 0, .selection 3],
     .scalarFunction "and" []
       [.scalarFunction "eq" [] [.selection 1, .selection 4],
        .scalarFunction "eq" [] [.selection 2, .selection 5]]]

/-- The three ways a leaf passes the eligibility analysis. -/
def pushedLeaf (inCols : List Nat) (f : SFun) : Prop :=
  (f.name ≠ "not" ∧ f.name ≠ "or" ∧
    canPushdownCommonFunction f inCols f.name = true) ∨
  (f.name = "not" ∧ ∃ q q2, canPushdownNot f inCols q = .ok (true, q2)) ∨
  (f.name = "or" ∧ canPushdownOr f inCols = true)

/-- An IN leaf on BIGINT column 0. -/
def inFnC5 : SFun := ⟨"in", ["i64"], [.selection 0, .literal (.list [.i64 1, .i64 2])]⟩

/-- A range leaf on the same column as the IN leaf. -/
def gteFnC5 : SFun := ⟨"gte", ["i64", "i64"], [.selection 0, .literal (.i64 5)]⟩

/-- An is_not_null leaf on BIGINT column 0. -/
def isNotNullC1 : SFun := ⟨"is_not_null", ["i64"], [.selection 0]⟩

/-- A FilterInfo as produced by the eligible disjunction
or(equal(c0, 1), gte(c0, 2)) on a BIGINT column: two lower bounds but only
one upper bound. -/
def fiC2 : FilterInfo :=
  ⟨[some (.vInt 1), some (.vInt 2)], [false, false], [some (.vInt 1)], [false],
   none, [], true⟩

/-!  Theorems. -/


/-- C3: every pushdown candidate updates the referenced column FilterInfo
per the comparison table: is_not_null clears nullAllowed (error under
reverse); gte appends an inclusive lower bound, under reverse an exclusive
upper bound; gt an exclusive lower, under reverse an inclusive upper; lte
an inclusive upper, under reverse an exclusive lower; lt an exclusive
upper, under reverse an inclusive lower; equal appends an inclusive lower
and an inclusive upper, under reverse it sets notValue. -/
theorem accumulator_comparison_table (m : ColInfoMap) (c : Nat) (v : Option Variant) :
    (setColInfoMap "is_not_null" c v false m =
      .ok (updateCol m c (fun fi => { fi with nullAllowed := false }))) ∧
    (∃ e, setColInfoMap "is_not_null" c v true m = .error e) ∧
    (setColInfoMap "gte" c v false m =
      .ok (updateCol m c (fun fi =>
        { fi with lowerBounds := fi.lowerBounds ++ [v],
                  lowerExclusives := fi.lowerExclusives ++ [false] }))) ∧
    (setColInfoMap "gte" c v true m =
      .ok (updateCol m c (fun fi =>
        { fi with upperBounds := fi.upperBounds ++ [v],
                  upperExclusives := fi.upperExclusives ++ [true] }))) ∧
    (setColInfoMap "gt" c v false m =
      .ok (updateCol m c (fun fi =>
        { fi with lowerBounds := fi.lowerBounds ++ [v],
                  lowerExclusives := fi.lowerExclusives ++ [true] }))) ∧
    (setColInfoMap "gt" c v true m =
      .ok (updateCol m c (fun fi =>
        { fi with upperBounds := fi.upperBounds ++ [v],
                  upperExclusives := fi.upperExclusives ++ [false] }))) ∧
    (setColInfoMap "lte" c v false m =
      .ok (updateCol m c (fun fi =>
        { fi with upperBounds := fi.upperBounds ++ [v],
                  upperExclusives := fi.upperExclusives ++ [false] }))) ∧
    (setColInfoMap "lte" c v true m =
      .ok (updateCol m c (fun fi =>
        { fi with lowerBounds := fi.lowerBounds ++ [v],
                  lowerExclusives := fi.lowerExclusives ++ [true] }))) ∧
    (setColInfoMap "lt" c v false m =
      .ok (updateCol m c (fun fi =>
        { fi with upperBounds := fi.upperBounds ++ [v],
                  upperExclusives := fi.upperExclusives ++ [true] }))) ∧
    (setColInfoMap "lt" c v true m =
      .ok (updateCol m c (fun fi =>
        { fi with lowerBounds := fi.lowerBounds ++ [v],
                  lowerExclusives := fi.lowerExclusives ++ [false] }))) ∧
    (setColInfoMap "equal" c v false m =
      .ok (updateCol m c (fun fi =>
        { fi with lowerBounds := fi.lowerBounds ++ [v],
                  lowerExclusives := fi.lowerExclusives ++ [false],
                  upperBounds := fi.upperBounds ++ [v],
                  upperExclusives := fi.upperExclusives ++ [false] }))) ∧
    (setColInfoMap "equal" c v true m =
      .ok (updateCol m c (fun fi => { fi with notValue := v }))) :=
  ⟨rfl, ⟨_, rfl⟩, rfl, rfl, rfl, rfl, rfl, rfl, rfl, rfl, rfl, rfl⟩

/-- C4: a FilterInfo with notValue set and no range bounds (and no IN
values) emits exactly one two-element MultiRange equal to
(col gt v) union (col lt v): the first element lower-bounded at the value
exclusively and upper-unbounded, the second lower-unbounded and
upper-bounded at the value exclusively, with the null-allowed flag of the
FilterInfo on both elements and on the MultiRange. -/
theorem not_equal_two_range_multirange {Native : Type} (ops : RangeTraitsOps Native)
    (name : String) (fi : FilterInfo) (filters : SubfieldFilters)
    (nv : Variant) (n : Native)
    (hnot : fi.notValue = some nv)
    (hfv : ops.fromVariant nv = .ok n)
    (hlo : fi.lowerBounds = []) (hup : fi.upperBounds = [])
    (hvals : fi.valuesVector = []) :
    constructSubfieldFilters ops name fi filters =
      .ok (filters.assign name (ops.mkMultiRange
        [ops.mkRange n false true ops.getMax true false fi.nullAllowed,
         ops.mkRange ops.getLowest true false n false true fi.nullAllowed]
        fi.nullAllowed)) := by
  have hinit : fi.isInitialized = true := by
    simp [FilterInfo.isInitialized, hnot]
  simp [constructSubfieldFilters, hinit, hvals, hlo, hup, hnot,
    createNotEqualFilter, hfv, bind, Except.bind]

/-- Witness for C4 at scenario C: not(equal(c0, 5)) on an INTEGER column
yields the BigintMultiRange of the two half-open ranges. -/
theorem not_equal_two_range_multirange_witness :
    constructSubfieldFilters traitsInteger "c0" fiC4 [] =
      .ok [("c0", .bigintMultiRange
        [.bigintRange 5 false true (2 ^ 31 - 1) true false true,
         .bigintRange (-(2 ^ 31)) true false 5 false true true] true)] :=
  not_equal_two_range_multirange traitsInteger "c0" fiC4 [] (.vInt 5) 5
    rfl rfl rfl rfl rfl

/-- C7 counterexample: a boolean literal above a scan is not passed to the
residuals; flattenConditions raises the fatal NotImplemented error on it. -/
theorem flatten_nonscalar_counterexample :
    flattenConditions (.literal (.boolean true)) =
      .error "GetFlatConditions not supported for type" := rfl

/-- C7 amended: flattening recurses only into scalar calls named "and"
and collects every other scalar call as a leaf, but a node that is not a
scalar call is a fatal NotImplemented error rather than a residual. -/
theorem flatten_and_recursion_only :
    (∀ (name : String) (types : List String) (args : List SExpr),
      name ≠ "and" →
      flattenConditions (.scalarFunction name types args) =
        .ok [⟨name, types, args⟩]) ∧
    (∀ (types : List String) (args : List SExpr),
      flattenConditions (.scalarFunction "and" types args) =
        flattenCondList args) ∧
    (∀ e : SExpr,
      (∀ (name : String) (types : List String) (args : List SExpr),
        e ≠ .scalarFunction name types args) →
      flattenConditions e = .error "GetFlatConditions not supported for type") := by
  refine ⟨?_, ?_, ?_⟩
  · intro name types args hne
    simp [flattenConditions, hne]
  · intro types args
    simp [flattenConditions]
  · intro e he
    cases e with
    | selection i => rfl
    | literal l => rfl
    | scalarFunction n t a => exact absurd rfl (he n t a)
    | unsupported t => rfl

/-- Witness for the amended C7 at a "gte" leaf and at a boolean literal. -/
theorem flatten_and_recursion_only_witness :
    flattenConditions (.scalarFunction "gte" [] []) = .ok [⟨"gte", [], []⟩] ∧
    flattenConditions (.literal (.boolean true)) =
      .error "GetFlatConditions not supported for type" :=
  ⟨flatten_and_recursion_only.1 "gte" [] [] (by decide),
   flatten_and_recursion_only.2.2 (.literal (.boolean true))
     (by intro n t a h; cases h)⟩

/-- C9: the eligibility analysis admits or(in(c0, values), gte(c0, x)) on
a VARCHAR column, and the builder then fails its consistency check: the
column FilterInfo holds a non-empty valuesVector together with a lower
bound, so the VELOX_CHECK after the IN lowering fires instead of never
firing. -/
theorem or_in_range_check_fires :
    canPushdownOr orFnC9 [] = true ∧
    separateFilters [orFnC9] = .ok ([orFnC9], []) ∧
    toSubfieldFilters ["c0"] [.VARCHAR] [orFnC9] =
      .error "LowerBounds or upperBounds conditions cannot be supported after IN filter." :=
  ⟨rfl, rfl, rfl⟩

/-- C10: the OR eligibility check accepts a three-child or (it only
inspects the children), the conjunction containing it is separated into
the pushdown candidates, and the accumulator then fails with the fatal
argument-count check instead of the leaf falling back to the residuals. -/
theorem or_arity_mismatch_fatal :
    canPushdownOr orFnC10 [] = true ∧
    separateFilters [orFnC10] = .ok ([orFnC10], []) ∧
    toSubfieldFilters ["c0"] [.BIGINT] [orFnC10] =
      .error "or expects exactly two arguments" :=
  ⟨rfl, rfl, rfl⟩


/-- C8 counterexample: the URI "xiterator:3" is not of the form
iterator:N, so per the claim it is a real data file, yet the converter
substitutes the upstream node at index 3 because streamIsInput matches the
substring "iterator:" anywhere in the URI and stoi parses the leading
digits of the remainder. -/
theorem stream_substring_counterexample :
    readRelSource false [3] (some [fileC8]) = .ok (.stream 3 true) ∧
    isIteratorUriForm "xiterator:3" = false :=
  ⟨rfl, rfl⟩

/-- C8 amended: with non-empty local files, the scan is replaced by the
pre-registered upstream node exactly when the first URI contains
"iterator:" as a substring and stoi of the suffix after its first
occurrence yields a nonnegative registered index, recording
splitInfo.isStream = true; a URI without the substring (and a negative
parse) is treated as a real data file, an unregistered index and a
digitless suffix are fatal errors. -/
theorem stream_input_dispatch (vm : Bool) (reg : List Nat)
    (f0 : LocalFile) (fs : List LocalFile) :
    (strFind f0.uriFile "iterator:" = none →
      readRelSource vm reg (some (f0 :: fs)) = .ok (.scan false)) ∧
    (∀ pos n, strFind f0.uriFile "iterator:" = some pos →
      stoi (f0.uriFile.drop (pos + "iterator:".length)) = .ok n →
      0 ≤ n →
      ((n.toNat ∈ reg →
          readRelSource vm reg (some (f0 :: fs)) = .ok (.stream n.toNat true)) ∧
       (n.toNat ∉ reg →
          ∃ e, readRelSource vm reg (some (f0 :: fs)) = .error e))) ∧
    (∀ pos n, strFind f0.uriFile "iterator:" = some pos →
      stoi (f0.uriFile.drop (pos + "iterator:".length)) = .ok n →
      n < 0 →
      readRelSource vm reg (some (f0 :: fs)) = .ok (.scan false)) ∧
    (∀ pos e, strFind f0.uriFile "iterator:" = some pos →
      stoi (f0.uriFile.drop (pos + "iterator:".length)) = .error e →
      readRelSource vm reg (some (f0 :: fs)) = .error e) := by
  refine ⟨?_, ?_, ?_, ?_⟩
  · intro hf
    simp [readRelSource, streamIsInput, hf, bind, Except.bind]
  · intro pos n hf hs hn
    constructor
    · intro hmem
      simp [readRelSource, streamIsInput, hf, hs, hn, hmem, bind, Except.bind]
    · intro hmem
      refine ⟨"Could not find source index in input nodes map.", ?_⟩
      simp [readRelSource, streamIsInput, hf, hs, hn, hmem, bind, Except.bind]
  · intro pos n hf hs hn
    have : ¬(0 ≤ n) := by omega
    simp [readRelSource, streamIsInput, hf, hs, this, bind, Except.bind]
  · intro pos e hf hs
    simp [readRelSource, streamIsInput, hf, hs, bind, Except.bind]

/-- Witness for the amended C8: "iterator:7" with node 7 registered is
substituted with isStream = true. -/
theorem stream_input_dispatch_witness :
    readRelSource false [7] (some [fileC8W]) = .ok (.stream 7 true) :=
  ((stream_input_dispatch false [7] fileC8W []).2.1 0 7 rfl rfl (by decide)).1
    (by decide)

lemma textualEqPairs_and (t : List String) (x y : SExpr) :
    textualEqPairs (.scalarFunction "and" t [x, y]) =
      textualEqPairs x ++ textualEqPairs y := by
  simp [textualEqPairs]

lemma textualLeftKeys_and (t : List String) (x y : SExpr) :
    textualLeftKeys (.scalarFunction "and" t [x, y]) =
      textualLeftKeys x ++ textualLeftKeys y := by
  simp [textualLeftKeys, textualEqPairs_and]

lemma textualRightKeys_and (t : List String) (x y : SExpr) :
    textualRightKeys (.scalarFunction "and" t [x, y]) =
      textualRightKeys x ++ textualRightKeys y := by
  simp [textualRightKeys, textualEqPairs_and]

lemma extractGo_tree (e : SExpr) (h : IsAndEqTree e) :
    ∀ (rest : List SExpr) (left right : List Nat),
      extractJoinKeysGo (e :: rest) left right =
        extractJoinKeysGo rest (left ++ (textualLeftKeys e).reverse)
          (right ++ (textualRightKeys e).reverse) := by
  induction h with
  | eqLeaf t l r =>
      intro rest left right
      have hL : textualLeftKeys (.scalarFunction "eq" t [.selection l, .selection r]) = [l] := by
        simp [textualLeftKeys, textualEqPairs]
      have hR : textualRightKeys (.scalarFunction "eq" t [.selection l, .selection r]) = [r] := by
        simp [textualRightKeys, textualEqPairs]
      rw [hL, hR]
      simp [extractJoinKeysGo, SExpr.isSelection, firstTwoSelections]
  | andNode t x y hx hy ihx ihy =>
      intro rest left right
      have step : extractJoinKeysGo (SExpr.scalarFunction "and" t [x, y] :: rest) left right =
          extractJoinKeysGo (y :: x :: rest) left right := by
        simp [extractJoinKeysGo]
      rw [step, ihy (x :: rest) left right, ihx rest,
        textualLeftKeys_and, textualRightKeys_and]
      simp [List.reverse_append, List.append_assoc]

lemma joinCondC6_tree : IsAndEqTree joinCondC6 :=
  IsAndEqTree.andNode [] _ _ (IsAndEqTree.eqLeaf [] 0 3)
    (IsAndEqTree.andNode [] _ _ (IsAndEqTree.eqLeaf [] 1 4) (IsAndEqTree.eqLeaf [] 2 5))

/-- C6 amended: for a join condition that is a tree of binary and nodes
over eq(field, field) leaves, extraction yields equally many left and
right keys, and the key pairs appear in the reverse of the declared
textual order of the eq leaves (the worklist visits the second argument
of each and first). -/
theorem join_keys_reverse_textual (e : SExpr) (h : IsAndEqTree e) :
    extractJoinKeys e =
      .ok ((textualLeftKeys e).reverse, (textualRightKeys e).reverse) ∧
    (∀ L R, extractJoinKeys e = .ok (L, R) → L.length = R.length) := by
  have hgo := extractGo_tree e h [] [] []
  have h1 : extractJoinKeys e =
      .ok ((textualLeftKeys e).reverse, (textualRightKeys e).reverse) := by
    unfold extractJoinKeys
    rw [hgo]
    simp [extractJoinKeysGo]
  refine ⟨h1, ?_⟩
  intro L R hLR
  rw [h1] at hLR
  cases hLR
  simp [textualLeftKeys, textualRightKeys]

/-- Witness for the amended C6 at scenario F: the three key pairs come out
reversed. -/
theorem join_keys_reverse_textual_witness :
    extractJoinKeys joinCondC6 = .ok ([2, 1, 0], [5, 4, 3]) :=
  (join_keys_reverse_textual joinCondC6 joinCondC6_tree).1

/-- C6 counterexample: on scenario F the extracted key lists are the
reverse of the declared textual order, not the declared textual order. -/
theorem join_key_order_counterexample :
    extractJoinKeys joinCondC6 = .ok ([2, 1, 0], [5, 4, 3]) ∧
    textualEqPairs joinCondC6 = [(0, 3), (1, 4), (2, 5)] ∧
    extractJoinKeys joinCondC6 ≠
      .ok (textualLeftKeys joinCondC6, textualRightKeys joinCondC6) := by
  have h1 : extractJoinKeys joinCondC6 = .ok ([2, 1, 0], [5, 4, 3]) := by
    simp [extractJoinKeys, extractJoinKeysGo, joinCondC6, SExpr.isSelection,
      firstTwoSelections]
  refine ⟨h1, rfl, ?_⟩
  rw [h1]
  intro hcontra
  cases hcontra

lemma separateGo_acc_mem (inCols : List Nat) :
    ∀ (fs sub rem : List SFun) (neq : List Nat) (S R : List SFun),
      separateFiltersGo inCols fs sub rem neq = .ok (S, R) →
      (∀ x ∈ sub, x ∈ S) ∧ (∀ x ∈ rem, x ∈ R) := by
  intro fs
  induction fs with
  | nil =>
      intro sub rem neq S R h
      rw [separateFiltersGo] at h
      cases h
      exact ⟨fun x hx => hx, fun x hx => hx⟩
  | cons f rest ih =>
      intro sub rem neq S R h
      rw [separateFiltersGo] at h
      by_cases hno : f.name ≠ "not" ∧ f.name ≠ "or"
      · rw [if_pos hno] at h
        by_cases hc : canPushdownCommonFunction f inCols f.name = true
        · rw [if_pos hc] at h
          obtain ⟨h1, h2⟩ := ih _ _ _ _ _ h
          exact ⟨fun x hx => h1 x (List.mem_append_left _ hx), h2⟩
        · rw [if_neg hc] at h
          obtain ⟨h1, h2⟩ := ih _ _ _ _ _ h
          exact ⟨h1, fun x hx => h2 x (List.mem_append_left _ hx)⟩
      · rw [if_neg hno] at h
        by_cases hn : f.name = "not"
        · rw [if_pos hn] at h
          cases hcn : canPushdownNot f inCols neq with
          | error e => simp only [hcn] at h; cases h
          | ok p =>
              obtain ⟨supported, neq2⟩ := p
              simp only [hcn] at h
              cases supported with
              | true =>
                  rw [if_pos rfl] at h
                  obtain ⟨h1, h2⟩ := ih _ _ _ _ _ h
                  exact ⟨fun x hx => h1 x (List.mem_append_left _ hx), h2⟩
              | false =>
                  simp only [Bool.false_eq_true, if_false] at h
                  obtain ⟨h1, h2⟩ := ih _ _ _ _ _ h
                  exact ⟨h1, fun x hx => h2 x (List.mem_append_left _ hx)⟩
        · rw [if_neg hn] at h
          by_cases ho : canPushdownOr f inCols = true
          · rw [if_pos ho] at h
            obtain ⟨h1, h2⟩ := ih _ _ _ _ _ h
            exact ⟨fun x hx => h1 x (List.mem_append_left _ hx), h2⟩
          · rw [if_neg ho] at h
            obtain ⟨h1, h2⟩ := ih _ _ _ _ _ h
            exact ⟨h1, fun x hx => h2 x (List.mem_append_left _ hx)⟩


lemma separateGo_sub_origin (inCols : List Nat) :
    ∀ (fs sub rem : List SFun) (neq : List Nat) (S R : List SFun),
      separateFiltersGo inCols fs sub rem neq = .ok (S, R) →
      ∀ x ∈ S, x ∈ sub ∨ (x ∈ fs ∧ pushedLeaf inCols x) := by
  intro fs
  induction fs with
  | nil =>
      intro sub rem neq S R h x hx
      rw [separateFiltersGo] at h
      cases h
      exact Or.inl hx
  | cons f rest ih =>
      intro sub rem neq S R h x hx
      rw [separateFiltersGo] at h
      by_cases hno : f.name ≠ "not" ∧ f.name ≠ "or"
      · rw [if_pos hno] at h
        by_cases hc : canPushdownCommonFunction f inCols f.name = true
        · rw [if_pos hc] at h
          rcases ih _ _ _ _ _ h x hx with hmem | ⟨hrest, hp⟩
          · rcases List.mem_append.mp hmem with hs | hf
            · exact Or.inl hs
            · refine Or.inr ⟨?_, ?_⟩
              · rw [List.mem_singleton.mp hf]; exact List.mem_cons_self f rest
              · rw [List.mem_singleton.mp hf]
                exact Or.inl ⟨hno.1, hno.2, hc⟩
          · exact Or.inr ⟨List.mem_cons_of_mem f hrest, hp⟩
        · rw [if_neg hc] at h
          rcases ih _ _ _ _ _ h x hx with hmem | ⟨hrest, hp⟩
          · exact Or.inl hmem
          · exact Or.inr ⟨List.mem_cons_of_mem f hrest, hp⟩
      · rw [if_neg hno] at h
        by_cases hn : f.name = "not"
        · rw [if_pos hn] at h
          cases hcn : canPushdownNot f inCols neq with
          | error e => simp only [hcn] at h; cases h
          | ok p =>
              obtain ⟨supported, neq2⟩ := p
              simp only [hcn] at h
              cases supported with
              | true =>
                  rw [if_pos rfl] at h
                  rcases ih _ _ _ _ _ h x hx with hmem | ⟨hrest, hp⟩
                  · rcases List.mem_append.mp hmem with hs | hf
                    · exact Or.inl hs
                    · refine Or.inr ⟨?_, ?_⟩
                      · rw [List.mem_singleton.mp hf]; exact List.mem_cons_self f rest
                      · rw [List.mem_singleton.mp hf]
                        exact Or.inr (Or.inl ⟨hn, neq, neq2, hcn⟩)
                  · exact Or.inr ⟨List.mem_cons_of_mem f hrest, hp⟩
              | false =>
                  simp only [Bool.false_eq_true, if_false] at h
                  rcases ih _ _ _ _ _ h x hx with hmem | ⟨hrest, hp⟩
                  · exact Or.inl hmem
                  · exact Or.inr ⟨List.mem_cons_of_mem f hrest, hp⟩
        · rw [if_neg hn] at h
          have hor : f.name = "or" := by
            by_contra hcon
            exact hno ⟨hn, hcon⟩
          by_cases ho : canPushdownOr f inCols = true
          · rw [if_pos ho] at h
            rcases ih _ _ _ _ _ h x hx with hmem | ⟨hrest, hp⟩
            · rcases List.mem_append.mp hmem with hs | hf
              · exact Or.inl hs
              · refine Or.inr ⟨?_, ?_⟩
                · rw [List.mem_singleton.mp hf]; exact List.mem_cons_self f rest
                · rw [List.mem_singleton.mp hf]
                  exact Or.inr (Or.inr ⟨hor, ho⟩)
            · exact Or.inr ⟨List.mem_cons_of_mem f hrest, hp⟩
          · rw [if_neg ho] at h
            rcases ih _ _ _ _ _ h x hx with hmem | ⟨hrest, hp⟩
            · exact Or.inl hmem
            · exact Or.inr ⟨List.mem_cons_of_mem f hrest, hp⟩

lemma separateGo_common_rem (inCols : List Nat) :
    ∀ (fs sub rem : List SFun) (neq : List Nat) (S R : List SFun),
      separateFiltersGo inCols fs sub rem neq = .ok (S, R) →
      ∀ x ∈ fs, x.name ≠ "not" → x.name ≠ "or" →
        canPushdownCommonFunction x inCols x.name = false → x ∈ R := by
  intro fs
  induction fs with
  | nil => intro sub rem neq S R h x hx; cases hx
  | cons f rest ih =>
      intro sub rem neq S R h x hx hxn hxo hxc
      rw [separateFiltersGo] at h
      rcases List.mem_cons.mp hx with hxf | hxrest
      · subst hxf
        rw [if_pos ⟨hxn, hxo⟩] at h
        rw [if_neg (by rw [hxc]; simp)] at h
        exact (separateGo_acc_mem inCols _ _ _ _ _ _ h).2 x
          (List.mem_append_right _ (List.mem_singleton.mpr rfl))
      · by_cases hno : f.name ≠ "not" ∧ f.name ≠ "or"
        · rw [if_pos hno] at h
          by_cases hc : canPushdownCommonFunction f inCols f.name = true
          · rw [if_pos hc] at h
            exact ih _ _ _ _ _ h x hxrest hxn hxo hxc
          · rw [if_neg hc] at h
            exact ih _ _ _ _ _ h x hxrest hxn hxo hxc
        · rw [if_neg hno] at h
          by_cases hn : f.name = "not"
          · rw [if_pos hn] at h
            cases hcn : canPushdownNot f inCols neq with
            | error e => simp only [hcn] at h; cases h
            | ok p =>
                obtain ⟨supported, neq2⟩ := p
                simp only [hcn] at h
                cases supported with
                | true =>
                    rw [if_pos rfl] at h
                    exact ih _ _ _ _ _ h x hxrest hxn hxo hxc
                | false =>
                    simp only [Bool.false_eq_true, if_false] at h
                    exact ih _ _ _ _ _ h x hxrest hxn hxo hxc
          · rw [if_neg hn] at h
            by_cases ho : canPushdownOr f inCols = true
            · rw [if_pos ho] at h
              exact ih _ _ _ _ _ h x hxrest hxn hxo hxc
            · rw [if_neg ho] at h
              exact ih _ _ _ _ _ h x hxrest hxn hxo hxc


lemma childSelectionCols_all_scalar :
    ∀ (args : List SExpr) (cols : List Nat), childSelectionCols args = some cols →
      ∀ a ∈ args, ∃ n t ar, a = SExpr.scalarFunction n t ar := by
  intro args
  induction args with
  | nil => intro cols h a ha; cases ha
  | cons a rest ih =>
      intro cols h b hb
      cases a with
      | scalarFunction n t ar =>
          cases hrest : childSelectionCols rest with
          | none => rw [childSelectionCols, hrest] at h; cases h
          | some tail =>
              rcases List.mem_cons.mp hb with hba | hbrest
              · exact ⟨n, t, ar, hba⟩
              · exact ih tail hrest b hbrest
      | selection i => simp [childSelectionCols] at h
      | literal l => simp [childSelectionCols] at h
      | unsupported u => simp [childSelectionCols] at h

lemma fieldOrWithLiteral_none_of_all_scalar (name : String) (types : List String)
    (args : List SExpr)
    (hall : ∀ a ∈ args, ∃ n t ar, a = SExpr.scalarFunction n t ar) :
    fieldOrWithLiteral ⟨name, types, args⟩ = none := by
  match args, hall with
  | [], _ => rfl
  | [a], hall =>
      obtain ⟨n, t, ar, ha⟩ := hall a (List.mem_singleton.mpr rfl)
      subst ha
      rfl
  | [a, b], hall =>
      obtain ⟨n, t, ar, ha⟩ := hall a (by simp)
      obtain ⟨n2, t2, ar2, hb⟩ := hall b (by simp)
      subst ha
      subst hb
      rfl
  | a :: b :: c :: rest, _ => rfl

/-- C5: on a column referenced by a top-level IN leaf, only is_not_null or
in may be pushed; every range or equality leaf on that column lands in the
residuals. -/
theorem in_column_pushdown_exclusivity (fs sub rem : List SFun)
    (inCols : List Nat) (f : SFun) (idx : Nat)
    (hin : getInColIndices fs = .ok inCols)
    (hsep : separateFilters fs = .ok (sub, rem))
    (hf : f ∈ fs)
    (hfield : fieldOrWithLiteral f = some idx)
    (hidx : idx ∈ inCols) :
    (f ∈ sub → f.name = "is_not_null" ∨ f.name = "in") ∧
    (f.name ∈ (["gte", "gt", "lte", "lt", "equal"] : List String) → f ∈ rem) := by
  have hgo : separateFiltersGo inCols fs [] [] [] = .ok (sub, rem) := by
    unfold separateFilters at hsep
    rw [hin] at hsep
    simpa [bind, Except.bind] using hsep
  have hcont : inCols.contains idx = true := List.elem_iff.mpr hidx
  constructor
  · intro hfsub
    rcases separateGo_sub_origin inCols fs [] [] [] sub rem hgo f hfsub with
      hempty | ⟨-, hp⟩
    · cases hempty
    · rcases hp with ⟨hn1, hn2, hc⟩ | ⟨hnot, q, q2, hcn⟩ | ⟨hor, hco⟩
      · -- common: eligibility with idx in the IN columns forces the name
        by_cases hmem : f.name ∈ supportedCommonFunctions
        · simp [canPushdownCommonFunction, hmem, hfield, hidx] at hc
          exact hc
        · simp [canPushdownCommonFunction, hmem, hfield] at hc
      · -- a pushed "not" wraps a scalar call, so f has no direct field
        exfalso
        obtain ⟨name, types, args⟩ := f
        rw [canPushdownNot] at hcn
        match args, hfield, hcn with
        | [SExpr.selection i], hfield, hcn =>
            simp at hcn
        | [SExpr.literal l], hfield, hcn => simp [fieldOrWithLiteral] at hfield
        | [SExpr.scalarFunction n t ar], hfield, hcn =>
            simp [fieldOrWithLiteral] at hfield
        | [SExpr.unsupported u], hfield, hcn => simp [fieldOrWithLiteral] at hfield
        | [], hfield, hcn => cases hcn
        | a :: b :: r, hfield, hcn => cases hcn
      · -- a pushed "or" has only scalar-call children, so f has no direct field
        exfalso
        cases hch : chidrenFunctionsOnSameField f with
        | false => simp [canPushdownOr, hch] at hco
        | true =>
            cases hcs : childSelectionCols f.args with
            | none => simp [chidrenFunctionsOnSameField, hcs] at hch
            | some cols =>
                have hall := childSelectionCols_all_scalar f.args cols hcs
                have : fieldOrWithLiteral f = none := by
                  obtain ⟨name, types, args⟩ := f
                  exact fieldOrWithLiteral_none_of_all_scalar name types args hall
                rw [this] at hfield
                cases hfield
  · intro hname
    simp only [List.mem_cons, List.mem_singleton, List.not_mem_nil, or_false] at hname
    have hne_not : f.name ≠ "not" := by
      rcases hname with h | h | h | h | h <;> rw [h] <;> decide
    have hne_or : f.name ≠ "or" := by
      rcases hname with h | h | h | h | h <;> rw [h] <;> decide
    have hcfalse : canPushdownCommonFunction f inCols f.name = false := by
      rcases hname with h | h | h | h | h <;>
        simp [canPushdownCommonFunction, h, hfield, hidx, supportedCommonFunctions]
    exact separateGo_common_rem inCols fs [] [] [] sub rem hgo f hf hne_not hne_or hcfalse


/-- Witness for C5: with in(c0, [1,2]) and gte(c0, 5), the range lands in
the residuals. -/
theorem in_column_pushdown_exclusivity_witness :
    (gteFnC5 ∈ ([inFnC5] : List SFun) →
      gteFnC5.name = "is_not_null" ∨ gteFnC5.name = "in") ∧
    (gteFnC5.name ∈ (["gte", "gt", "lte", "lt", "equal"] : List String) →
      gteFnC5 ∈ ([gteFnC5] : List SFun)) :=
  in_column_pushdown_exclusivity [inFnC5, gteFnC5] [inFnC5] [gteFnC5] [0] gteFnC5 0
    rfl rfl (List.mem_cons_of_mem _ (List.mem_singleton.mpr rfl)) rfl
    (List.mem_singleton.mpr rfl)

lemma parquetSupportsKind_iff (k : FilterKind) :
    parquetSupportsKind k = true ↔ k ∈ claimParquetKinds := by
  cases k <;> simp [parquetSupportsKind, claimParquetKinds]

lemma parquet_support_characterization (format : FileFormat)
    (sf : SubfieldFilters) :
    isPushDownSupportedByFormat format sf = true ↔
      (format = .PARQUET → ∀ p ∈ sf, p.2.kind ∈ claimParquetKinds) := by
  cases format with
  | PARQUET =>
      rw [isPushDownSupportedByFormat, List.all_eq_true]
      constructor
      · intro hall _ p hp
        exact (parquetSupportsKind_iff p.2.kind).mp (hall p hp)
      · intro himp p hp
        exact (parquetSupportsKind_iff p.2.kind).mpr (himp rfl p hp)
  | ORC => simp [isPushDownSupportedByFormat]
  | DWRF => simp [isPushDownSupportedByFormat]
  | RC => simp [isPushDownSupportedByFormat]
  | RC_TEXT => simp [isPushDownSupportedByFormat]
  | RC_BINARY => simp [isPushDownSupportedByFormat]
  | TEXT => simp [isPushDownSupportedByFormat]
  | JSON => simp [isPushDownSupportedByFormat]
  | ALPHA => simp [isPushDownSupportedByFormat]
  | UNKNOWN => simp [isPushDownSupportedByFormat]

/-- C1: when conversion of a filtered scan succeeds, the emitted map and
residual are characterized by the format veto: if the format is PARQUET
and some produced filter kind is outside the six kinds of the claim, the
map is empty and the residual is the conjunction of all flattened leaves;
otherwise the map is the produced one and the residual is the conjunction
of the non-pushed leaves (every format other than PARQUET supports all
kinds). -/
theorem scan_format_veto (names : List String) (types : List TypeKind)
    (format : FileFormat) (filter : SExpr) (m : SubfieldFilters)
    (r : Option TypedExpr)
    (h : analyzeScanFilter names types format filter = .ok (m, r)) :
    ∃ leaves sub rem sf,
      flattenConditions filter = .ok leaves ∧
      separateFilters leaves = .ok (sub, rem) ∧
      toSubfieldFilters names types sub = .ok sf ∧
      ((format = .PARQUET ∧ ¬∀ p ∈ sf, p.2.kind ∈ claimParquetKinds) →
          m = [] ∧ r = connectWithAnd leaves) ∧
      (¬(format = .PARQUET ∧ ¬∀ p ∈ sf, p.2.kind ∈ claimParquetKinds) →
          m = sf ∧ r = connectWithAnd rem) := by
  unfold analyzeScanFilter at h
  cases hf : flattenConditions filter with
  | error e => rw [hf] at h; simp [bind, Except.bind] at h
  | ok leaves =>
      rw [hf] at h
      simp only [bind, Except.bind] at h
      cases hs : separateFilters leaves with
      | error e => rw [hs] at h; simp at h
      | ok sep =>
          obtain ⟨sub, rem⟩ := sep
          rw [hs] at h
          simp only at h
          cases ht : toSubfieldFilters names types sub with
          | error e => rw [ht] at h; simp at h
          | ok sf =>
              rw [ht] at h
              simp only at h
              refine ⟨leaves, sub, rem, sf, by simp [hf], by simp [hs], by simp [ht], ?_, ?_⟩
              · intro ⟨hfmt, hks⟩
                have hsupp : isPushDownSupportedByFormat format sf = false := by
                  cases hv : isPushDownSupportedByFormat format sf with
                  | false => rfl
                  | true =>
                      exact absurd ((parquet_support_characterization format sf).mp hv hfmt) hks
                rw [hsupp] at h
                simp at h
                exact ⟨h.1, h.2.symm⟩
              · intro hnk
                have hsupp : isPushDownSupportedByFormat format sf = true := by
                  cases hv : isPushDownSupportedByFormat format sf with
                  | true => rfl
                  | false =>
                      exfalso
                      apply hnk
                      by_cases hfmt : format = FileFormat.PARQUET
                      · refine ⟨hfmt, fun hall => ?_⟩
                        have := (parquet_support_characterization format sf).mpr
                          (fun _ => hall)
                        rw [hv] at this
                        cases this
                      · exfalso
                        have := (parquet_support_characterization format sf).mpr
                          (fun hh => absurd hh hfmt)
                        rw [hv] at this
                        cases this
                rw [hsupp] at h
                simp at h
                exact ⟨h.1.symm, h.2.symm⟩


/-- Witness for C1: is_not_null(c0) on a PARQUET scan produces an
IsNotNull subfield filter, whose kind parquet does not support, so the
veto clears the map and the whole conjunction becomes the residual. -/
theorem scan_format_veto_witness :
    ∃ leaves sub rem sf,
      flattenConditions isNotNullC1.toExpr = .ok leaves ∧
      separateFilters leaves = .ok (sub, rem) ∧
      toSubfieldFilters ["c0"] [.BIGINT] sub = .ok sf ∧
      ((FileFormat.PARQUET = .PARQUET ∧ ¬∀ p ∈ sf, p.2.kind ∈ claimParquetKinds) →
          ([] : SubfieldFilters) = [] ∧
            some (TypedExpr.ofScalar isNotNullC1) = connectWithAnd leaves) ∧
      (¬(FileFormat.PARQUET = .PARQUET ∧ ¬∀ p ∈ sf, p.2.kind ∈ claimParquetKinds) →
          ([] : SubfieldFilters) = sf ∧
            some (TypedExpr.ofScalar isNotNullC1) = connectWithAnd rem) :=
  scan_format_veto ["c0"] [.BIGINT] .PARQUET isNotNullC1.toExpr []
    (some (.ofScalar isNotNullC1)) rfl

lemma except_foldlM_append {α σ : Type} (f : σ → α → Except String σ)
    (l1 l2 : List α) (s : σ) :
    (l1 ++ l2).foldlM f s =
      (l1.foldlM f s).bind (fun s1 => l2.foldlM f s1) := by
  induction l1 generalizing s with
  | nil => rfl
  | cons a rest ih =>
      simp only [List.cons_append, List.foldlM]
      cases f s a with
      | error e => rfl
      | ok s2 => simpa using ih s2


lemma rangeStep_bigint (ops : RangeTraitsOps Int)
    (hfv : ops.fromVariant = Variant.asInt)
    (hrange : ops.mkRange = fun l lu lex u uu uex na =>
      VFilter.bigintRange l lu lex u uu uex na)
    (fi : FilterInfo)
    (hintL : ∀ x ∈ fi.lowerBounds, isIntBound x = true)
    (hintU : ∀ x ∈ fi.upperBounds, isIntBound x = true)
    (k : Nat) (acc : List VFilter) :
    rangeStep ops fi
      (combineBoundStates
        (boundStateUpTo ops.getLowest fi.lowerBounds fi.lowerExclusives k)
        (boundStateUpTo ops.getMax fi.upperBounds fi.upperExclusives k), acc) k =
      .ok (combineBoundStates
        (boundStateUpTo ops.getLowest fi.lowerBounds fi.lowerExclusives (k + 1))
        (boundStateUpTo ops.getMax fi.upperBounds fi.upperExclusives (k + 1)),
        acc ++ [expectedBigintRange ops.getLowest ops.getMax fi k]) := by
  have lowInt : ∀ v, fi.lowerBounds[k]? = some (some v) →
      ∃ m, v = Variant.vInt m := by
    intro v hg
    have hmem : some v ∈ fi.lowerBounds := by
      have := List.getElem?_eq_some.mp hg
      obtain ⟨hlt, hEq⟩ := this
      exact hEq ▸ List.getElem_mem hlt
    have hib := hintL _ hmem
    cases v with
    | vInt m => exact ⟨m, rfl⟩
    | vFp f => simp [isIntBound] at hib
    | vStr s => simp [isIntBound] at hib
  have upInt : ∀ v, fi.upperBounds[k]? = some (some v) →
      ∃ m, v = Variant.vInt m := by
    intro v hg
    have hmem : some v ∈ fi.upperBounds := by
      have := List.getElem?_eq_some.mp hg
      obtain ⟨hlt, hEq⟩ := this
      exact hEq ▸ List.getElem_mem hlt
    have hib := hintU _ hmem
    cases v with
    | vInt m => exact ⟨m, rfl⟩
    | vFp f => simp [isIntBound] at hib
    | vStr s => simp [isIntBound] at hib
  cases hgL : fi.lowerBounds[k]? with
  | none =>
      cases hgU : fi.upperBounds[k]? with
      | none =>
          simp [rangeStep, hgL, hgU, hfv, hrange, bind, Except.bind, pure,
            Except.pure, combineBoundStates, expectedBigintRange, boundStateUpTo]
      | some ou =>
          cases ou with
          | none =>
              simp [rangeStep, hgL, hgU, hfv, hrange, bind, Except.bind, pure,
                Except.pure, combineBoundStates, expectedBigintRange,
                boundStateUpTo]
          | some v =>
              obtain ⟨m, rfl⟩ := upInt v hgU
              simp [rangeStep, hgL, hgU, hfv, hrange, bind, Except.bind, pure,
                Except.pure, combineBoundStates, expectedBigintRange,
                boundStateUpTo, Variant.asInt, vIntD]
  | some ol =>
      cases ol with
      | none =>
          cases hgU : fi.upperBounds[k]? with
          | none =>
              simp [rangeStep, hgL, hgU, hfv, hrange, bind, Except.bind, pure,
                Except.pure, combineBoundStates, expectedBigintRange,
                boundStateUpTo]
          | some ou =>
              cases ou with
              | none =>
                  simp [rangeStep, hgL, hgU, hfv, hrange, bind, Except.bind,
                    pure, Except.pure, combineBoundStates, expectedBigintRange,
                    boundStateUpTo]
              | some v =>
                  obtain ⟨m, rfl⟩ := upInt v hgU
                  simp [rangeStep, hgL, hgU, hfv, hrange, bind, Except.bind,
                    pure, Except.pure, combineBoundStates, expectedBigintRange,
                    boundStateUpTo, Variant.asInt, vIntD]
      | some v =>
          obtain ⟨m, rfl⟩ := lowInt v hgL
          cases hgU : fi.upperBounds[k]? with
          | none =>
              simp [rangeStep, hgL, hgU, hfv, hrange, bind, Except.bind, pure,
                Except.pure, combineBoundStates, expectedBigintRange,
                boundStateUpTo, Variant.asInt, vIntD]
          | some ou =>
              cases ou with
              | none =>
                  simp [rangeStep, hgL, hgU, hfv, hrange, bind, Except.bind,
                    pure, Except.pure, combineBoundStates, expectedBigintRange,
                    boundStateUpTo, Variant.asInt, vIntD]
              | some v2 =>
                  obtain ⟨m2, rfl⟩ := upInt v2 hgU
                  simp [rangeStep, hgL, hgU, hfv, hrange, bind, Except.bind,
                    pure, Except.pure, combineBoundStates, expectedBigintRange,
                    boundStateUpTo, Variant.asInt, vIntD]


lemma rangeFold_bigint (ops : RangeTraitsOps Int)
    (hfv : ops.fromVariant = Variant.asInt)
    (hrange : ops.mkRange = fun l lu lex u uu uex na =>
      VFilter.bigintRange l lu lex u uu uex na)
    (fi : FilterInfo)
    (hintL : ∀ x ∈ fi.lowerBounds, isIntBound x = true)
    (hintU : ∀ x ∈ fi.upperBounds, isIntBound x = true) :
    ∀ k : Nat,
      (List.range k).foldlM (rangeStep ops fi)
        (((ops.getLowest, true, false, ops.getMax, true, false) :
          Int × Bool × Bool × Int × Bool × Bool), ([] : List VFilter)) =
      .ok (combineBoundStates
        (boundStateUpTo ops.getLowest fi.lowerBounds fi.lowerExclusives k)
        (boundStateUpTo ops.getMax fi.upperBounds fi.upperExclusives k),
        (List.range k).map (expectedBigintRange ops.getLowest ops.getMax fi)) := by
  intro k
  induction k with
  | zero => rfl
  | succ n ih =>
      rw [List.range_succ, except_foldlM_append, ih]
      show ([n].foldlM (rangeStep ops fi) _) = _
      simp only [List.foldlM]
      rw [rangeStep_bigint ops hfv hrange fi hintL hintU n]
      simp [List.range_succ]


lemma setSubfieldFilter_of_two_le {Native : Type} (ops : RangeTraitsOps Native)
    (l : List VFilter) (nm : String) (na : Bool) (fs : SubfieldFilters)
    (h : 2 ≤ l.length) :
    setSubfieldFilter ops l nm na fs = fs.assign nm (ops.mkMultiRange l na) := by
  match l, h with
  | a :: b :: t, _ => rfl

/-- C2 amended: over an integer column, a FilterInfo with no IN values and
no notValue and at least one bound emits N = max(|lowerBounds|,
|upperBounds|) ranges, where range i uses the bound at index i when
present and otherwise INHERITS the last present bound at an earlier index
(initially unbounded); a single range is emitted as is, several are
wrapped in a BigintMultiRange carrying the FilterInfo null-allowed flag. -/
theorem range_bound_carryover (ops : RangeTraitsOps Int)
    (hfv : ops.fromVariant = Variant.asInt)
    (hrange : ops.mkRange = fun l lu lex u uu uex na =>
      VFilter.bigintRange l lu lex u uu uex na)
    (hmulti : ops.mkMultiRange = fun rs na => VFilter.bigintMultiRange rs na)
    (name : String) (fi : FilterInfo) (filters : SubfieldFilters)
    (hvals : fi.valuesVector = []) (hnot : fi.notValue = none)
    (hintL : ∀ x ∈ fi.lowerBounds, isIntBound x = true)
    (hintU : ∀ x ∈ fi.upperBounds, isIntBound x = true)
    (hN : 0 < max fi.lowerBounds.length fi.upperBounds.length) :
    constructSubfieldFilters ops name fi filters =
      .ok (filters.assign name
        (if max fi.lowerBounds.length fi.upperBounds.length = 1 then
          expectedBigintRange ops.getLowest ops.getMax fi 0
         else
          VFilter.bigintMultiRange
            ((List.range (max fi.lowerBounds.length fi.upperBounds.length)).map
              (expectedBigintRange ops.getLowest ops.getMax fi))
            fi.nullAllowed)) := by
  have hinit : fi.isInitialized = true := by
    rcases lt_max_iff.mp hN with hL | hU
    · have hne : fi.lowerBounds ≠ [] := List.length_pos.mp hL
      simp [FilterInfo.isInitialized, List.isEmpty_iff, hne]
    · have hne : fi.upperBounds ≠ [] := List.length_pos.mp hU
      simp [FilterInfo.isInitialized, List.isEmpty_iff, hne]
  have hNne : max fi.lowerBounds.length fi.upperBounds.length ≠ 0 :=
    Nat.pos_iff_ne_zero.mp hN
  have hfold := rangeFold_bigint ops hfv hrange fi hintL hintU
    (max fi.lowerBounds.length fi.upperBounds.length)
  rw [constructSubfieldFilters]
  simp only [hinit, Bool.not_true, Bool.false_eq_true, if_false, ite_false,
    hvals, hnot, List.length_nil, gt_iff_lt, lt_irrefl]
  have hdec : decide (fi.lowerBounds.length ⊔ fi.upperBounds.length = 0) = false :=
    decide_eq_false hNne
  rw [hdec]
  simp only [Bool.false_and, Bool.false_eq_true, if_false, hfold, bind,
    Except.bind]
  by_cases h1 : fi.lowerBounds.length ⊔ fi.upperBounds.length = 1
  · rw [if_pos h1, h1]
    rfl
  · rw [if_neg h1]
    have h2 : 2 ≤ (List.map (expectedBigintRange ops.getLowest ops.getMax fi)
        (List.range (fi.lowerBounds.length ⊔ fi.upperBounds.length))).length := by
      simp only [List.length_map, List.length_range]
      omega
    rw [setSubfieldFilter_of_two_le ops _ _ _ _ h2, hmulti]


/-- C2 counterexample: fiC2 has no upper bound at index 1, yet the second
emitted range is NOT upper-unbounded: it carries the upper bound 1 left
over from index 0, because the loop state of constructSubfieldFilters
persists across iterations. -/
theorem range_upper_carryover_counterexample :
    fiC2.upperBounds.length = 1 ∧
    constructSubfieldFilters traitsBigint "c0" fiC2 [] =
      .ok [("c0", .bigintMultiRange
        [.bigintRange 1 false false 1 false false true,
         .bigintRange 2 false false 1 false false true] true)] :=
  ⟨rfl, rfl⟩

/-- Witness for the amended C2 at fiC2. -/
theorem range_bound_carryover_witness :
    constructSubfieldFilters traitsBigint "c0" fiC2 [] =
      .ok (SubfieldFilters.assign [] "c0"
        (if max fiC2.lowerBounds.length fiC2.upperBounds.length = 1 then
          expectedBigintRange traitsBigint.getLowest traitsBigint.getMax fiC2 0
         else
          VFilter.bigintMultiRange
            ((List.range (max fiC2.lowerBounds.length fiC2.upperBounds.length)).map
              (expectedBigintRange traitsBigint.getLowest traitsBigint.getMax fiC2))
            fiC2.nullAllowed)) :=
  range_bound_carryover traitsBigint rfl rfl rfl "c0" fiC2 [] rfl rfl
    (by decide) (by decide) (by decide)
end VeloxSubstrait
